import Mathlib

/-!
Verification of the moondream-web repository: the Next.js relay routes and
React components under `src/moondream-web` are embedded directly from the
TypeScript sources, while the FastAPI inference backend (`app.py`, which the
README describes but which is not shipped with the repository) is modelled
from the specification of the image-encoding cache and inference gate.
-/

set_option maxRecDepth 4000

namespace Moondream

/-! ## Core data model

Modelled from the spec: the FastAPI backend (`app.py`) holding the
EncodingStore, the InferenceGate and the RequestCoordinator is not part of
the repository sources; the definitions below follow the specification's
data model (§3), component contracts (§4) and error taxonomy (§7).
-/

/-- Raw uploaded image bytes, abstract. -/
abbrev ImageBytes := List Nat

/-- Modelled from the spec: an `Encoding` is an opaque model-produced
representation of one image; only its identity matters to the store. -/
abbrev Encoding := Nat

/-- Modelled from the spec: failures of a gated model call — the model
capability itself failed, or the deadline elapsed while queued for a slot. -/
inductive GateFailure where
  | modelError
  | timeout
deriving DecidableEq

/-- Modelled from the spec: the opaque capabilities the core consumes from
the model (§6): `encode`, `describe` and `answer`, each of which may fail.
The answer capability is reached through the InferenceGate, so it may also
time out while queued. -/
structure ModelCapability where
  encode : ImageBytes → Option Encoding
  describeCap : Encoding → Option String
  answerCap : Encoding → String → Except GateFailure String

/-- Modelled from the spec: a cache entry of the EncodingStore (§3). -/
structure CacheEntry where
  key : String
  encoding : Encoding
  createdAt : Nat
  lastUsedAt : Nat
  refCount : Nat
deriving DecidableEq

/-- Modelled from the spec: the EncodingStore state — the key→entry mapping,
the monotonic counter from which fresh keys are derived, the allocation
capacity and the eviction TTL. -/
structure EncodingStore where
  entries : List CacheEntry
  nextId : Nat
  capacity : Nat
  ttl : Nat
deriving DecidableEq

/-- Modelled from the spec: keys are opaque strings derived deterministically
from a monotonic counter, unique across the store's lifetime (§3). -/
def mkKey (n : Nat) : String :=
  String.mk (List.replicate (n + 1) 'k')

/-- Look up the live entry stored under key `k`, if any. -/
def findEntry (s : EncodingStore) (k : String) : Option CacheEntry :=
  s.entries.find? (fun e => e.key == k)

/-- Modelled from the spec: `Put(encoding) -> key` generates a fresh unique
key and inserts an entry with `refCount = 0`; it fails only on allocation
exhaustion (§4.1). -/
def put (s : EncodingStore) (enc : Encoding) (now : Nat) :
    Option (String × EncodingStore) :=
  if s.capacity ≤ s.entries.length then
    none
  else
    let k := mkKey s.nextId
    some (k, { s with
      entries := ⟨k, enc, now, now, 0⟩ :: s.entries,
      nextId := s.nextId + 1 })

/-- The per-entry effect of `Acquire` on a matching key: bump the refCount
and record the use time. -/
def touchEntry (k : String) (now : Nat) (e : CacheEntry) : CacheEntry :=
  if e.key == k then { e with refCount := e.refCount + 1, lastUsedAt := now }
  else e

/-- The per-entry effect of `Release` on a matching key: drop the refCount. -/
def dropRef (k : String) (e : CacheEntry) : CacheEntry :=
  if e.key == k then { e with refCount := e.refCount - 1 } else e

/-- Modelled from the spec: `Acquire(key)` increments the entry's refCount,
updates `lastUsedAt` and hands back the entry; absent keys signal NotFound
(here `none`) (§4.1). -/
def acquire (s : EncodingStore) (k : String) (now : Nat) :
    Option (CacheEntry × EncodingStore) :=
  match findEntry s k with
  | none => none
  | some e => some (e, { s with entries := s.entries.map (touchEntry k now) })

/-- Modelled from the spec: `Release(handle)` decrements the refCount and
never evicts inline (§4.1). -/
def release (s : EncodingStore) (k : String) : EncodingStore :=
  { s with entries := s.entries.map (dropRef k) }

/-- Modelled from the spec: explicit invalidation of a key, used by the
coordinator to avoid orphaned entries on a partial Describe failure (§4.3). -/
def invalidate (s : EncodingStore) (k : String) : EncodingStore :=
  { s with entries := s.entries.filter (fun e => !(e.key == k)) }

/-- An entry is evictable when nobody holds it and its TTL has elapsed. -/
def evictable (ttl now : Nat) (e : CacheEntry) : Bool :=
  e.refCount == 0 && decide (ttl < now - e.lastUsedAt)

/-- Modelled from the spec: `Sweep(now)` removes every entry with
`refCount = 0` and `now - lastUsedAt > TTL` (§4.1). -/
def sweep (s : EncodingStore) (now : Nat) : EncodingStore :=
  { s with entries := s.entries.filter (fun e => !(evictable s.ttl now e)) }

/-- Modelled from the spec: the error taxonomy of the core (§7). -/
inductive CoreError where
  | modelError
  | expiredOrUnknownKey
  | timeout
  | resourceExhausted
deriving DecidableEq

/-- Modelled from the spec: the success payload of `describe` (§6) — exactly
a description string and an image_key string. -/
structure DescribeResult where
  description : String
  image_key : String
deriving DecidableEq

/-- Modelled from the spec: the success payload of `ask` (§6) — exactly an
answer string. -/
structure AskResult where
  answer : String
deriving DecidableEq

/-- Modelled from the spec: `RequestCoordinator.Describe` — encode through
the gate, store via Put, run the describe capability; on a step failure it
releases what was partially acquired and never leaves an orphaned entry
(§4.3). -/
def describeOp (m : ModelCapability) (s : EncodingStore) (img : ImageBytes)
    (now : Nat) : Except CoreError DescribeResult × EncodingStore :=
  match m.encode img with
  | none => (.error .modelError, s)
  | some enc =>
    match put s enc now with
    | none => (.error .resourceExhausted, s)
    | some (k, s1) =>
      match m.describeCap enc with
      | none => (.error .modelError, invalidate s1 k)
      | some d => (.ok ⟨d, k⟩, s1)

/-- Modelled from the spec: `RequestCoordinator.Ask` — Acquire the key
(NotFound becomes `ExpiredOrUnknownKey`), run the gated answer capability,
and always Release the handle regardless of the outcome (§4.3). -/
def askOp (m : ModelCapability) (s : EncodingStore) (k : String) (q : String)
    (now : Nat) : Except CoreError AskResult × EncodingStore :=
  match acquire s k now with
  | none => (.error .expiredOrUnknownKey, s)
  | some (e, s1) =>
    match m.answerCap e.encoding q with
    | .error .modelError => (.error .modelError, release s1 k)
    | .error .timeout => (.error .timeout, release s1 k)
    | .ok a => (.ok ⟨a⟩, release s1 k)

/-- The list of live keys of a store. -/
def keyList (s : EncodingStore) : List String :=
  s.entries.map (fun e => e.key)

/-- The live keys paired with their reference counts. -/
def refCounts (s : EncodingStore) : List (String × Nat) :=
  s.entries.map (fun e => (e.key, e.refCount))

/-- Store well-formedness: every live key was derived from a counter value
below `nextId`, and no two live entries share a key. -/
def StoreInv (s : EncodingStore) : Prop :=
  (∀ e ∈ s.entries, ∃ n, n < s.nextId ∧ e.key = mkKey n) ∧
  (keyList s).Nodup

/-- One externally driven operation on the core, for reasoning about the
store's whole lifetime. -/
inductive StoreOp where
  | describeReq (img : ImageBytes) (now : Nat)
  | askReq (k : String) (q : String) (now : Nat)
  | sweepReq (now : Nat)

/-- Run one operation against the store, keeping only the store state. -/
def runOp (m : ModelCapability) (s : EncodingStore) : StoreOp → EncodingStore
  | .describeReq img now => (describeOp m s img now).2
  | .askReq k q now => (askOp m s k q now).2
  | .sweepReq now => sweep s now

/-- Run a sequence of operations against the store. -/
def run (m : ModelCapability) (s : EncodingStore) : List StoreOp → EncodingStore
  | [] => s
  | op :: ops => run m (runOp m s op) ops

/-- The error kind of the core's `ask` corresponding to a gated answer
failure: the taxonomy injection of §7. -/
def liftGateFailure : GateFailure → CoreError
  | .modelError => .modelError
  | .timeout => .timeout

/-- A concrete model capability used to evaluate the definitions on small
inputs: encodings sum the bytes, descriptions and answers are derived
deterministically from the encoding. -/
def demoModel : ModelCapability where
  encode := fun img => some (img.foldl (· + ·) 0)
  describeCap := fun enc => some ("image " ++ toString enc)
  answerCap := fun enc q => .ok ("answer " ++ toString enc ++ " " ++ q)

/-- A model capability whose every call fails. -/
def failingModel : ModelCapability where
  encode := fun _ => none
  describeCap := fun _ => none
  answerCap := fun _ _ => .error .modelError

/-- An empty store with room for four entries and a TTL of ten ticks. -/
def demoStore : EncodingStore where
  entries := []
  nextId := 0
  capacity := 4
  ttl := 10

/-- A store holding one idle entry under the first generated key. -/
def demoStore1 : EncodingStore where
  entries := [⟨mkKey 0, 7, 0, 0, 0⟩]
  nextId := 1
  capacity := 4
  ttl := 10

/-! ## InferenceGate admission

Modelled from the spec: the InferenceGate (§4.2, §5) is part of the missing
backend. It is modelled as a transition system: requests arrive and join a
FIFO queue tagged with a monotonically increasing arrival number, a waiting
request is granted a slot only when it is at the head of the queue and fewer
than `capacity` slots are held, a holder finishes and frees its slot, and a
queued request may abandon the wait when its deadline elapses, without ever
consuming a slot.
-/

/-- Modelled from the spec: the state of the InferenceGate — the bound `N`
on concurrent model calls, the arrival counter, the FIFO queue of waiting
requests and the requests currently holding a slot. -/
structure GateState where
  capacity : Nat
  nextReq : Nat
  waiting : List Nat
  holding : List Nat
deriving DecidableEq

/-- The gate before any request has arrived. -/
def GateState.init (n : Nat) : GateState := ⟨n, 0, [], []⟩

/-- Modelled from the spec: one transition of the InferenceGate. -/
inductive GateStep : GateState → GateState → Prop where
  | arrive (s : GateState) :
      GateStep s { s with waiting := s.waiting ++ [s.nextReq],
                          nextReq := s.nextReq + 1 }
  | grant (s : GateState) (r : Nat) (rest : List Nat) :
      s.waiting = r :: rest → s.holding.length < s.capacity →
      GateStep s { s with waiting := rest, holding := s.holding ++ [r] }
  | finish (s : GateState) (r : Nat) :
      r ∈ s.holding →
      GateStep s { s with holding := s.holding.erase r }
  | abandon (s : GateState) (r : Nat) :
      r ∈ s.waiting →
      GateStep s { s with waiting := s.waiting.erase r }

/-- The gate invariant: the capacity is the configured bound, at most that
many requests hold slots, the waiting queue lists requests in strictly
increasing arrival order, and every queued request arrived before the
counter's current value. -/
def GateInv (n : Nat) (s : GateState) : Prop :=
  s.capacity = n ∧ s.holding.length ≤ n ∧
  s.waiting.Pairwise (· < ·) ∧ ∀ r ∈ s.waiting, r < s.nextReq

/-- The gate states reachable from the initial state with bound `n`. -/
inductive GateReachable (n : Nat) : GateState → Prop where
  | init : GateReachable n (GateState.init n)
  | step {s s' : GateState} :
      GateReachable n s → GateStep s s' → GateReachable n s'

/-! ## The ask relay route

Embedded from `src/moondream-web/src/pages/api/chat.ts` (the `/api/ask`
relay handler): it rejects non-POST methods with 405, rejects a parsed form
with a falsy `question` or `image_key` field with 400, and otherwise
forwards the pair to the local inference endpoint, relaying its response
with status 200 or mapping any failure to a 500 error body.
-/

/-- A parsed multipart form as the handler sees it: `fields.question?.[0]`
and `fields.image_key?.[0]`, each possibly absent. -/
structure ParsedFields where
  question : Option String
  image_key : Option String
deriving DecidableEq

/-- JavaScript falsiness of `string | undefined`: absent or empty. -/
def falsyStr : Option String → Bool
  | none => true
  | some s => s == ""

/-- The body of the relay's JSON response: either an error object or the
upstream answer payload relayed verbatim. -/
inductive RelayBody where
  | errorMsg (msg : String)
  | answerData (answer : String)
deriving DecidableEq

/-- What one invocation of the relay handler produces: the HTTP status, the
JSON body, and whether a request was forwarded to the inference server. -/
structure RelayOutcome where
  status : Nat
  body : RelayBody
  forwarded : Bool
deriving DecidableEq

/-- Embedded from `chat.ts`: the `/api/ask` relay handler. `upstream` stands
for the axios POST to `http://127.0.0.1:8000/ask`; it may fail. -/
def askRelayHandler (upstream : String → String → Option String)
    (method : String) (fields : ParsedFields) : RelayOutcome :=
  if method ≠ "POST" then
    ⟨405, .errorMsg "Method not allowed", false⟩
  else if falsyStr fields.question || falsyStr fields.image_key then
    ⟨400, .errorMsg "Missing question or image key", false⟩
  else
    match fields.question, fields.image_key with
    | some q, some ik =>
      match upstream q ik with
      | some ans => ⟨200, .answerData ans, true⟩
      | none => ⟨500, .errorMsg "Failed to process question", true⟩
    | _, _ => ⟨400, .errorMsg "Missing question or image key", false⟩

/-! ## The Chat component

Embedded from the Chat component (`src/unnamed/part_001`): `askQuestion`
returns immediately on a whitespace-only input; otherwise it appends the
user message, clears the input, POSTs the question and image key to
`/api/ask`, appends the assistant message on success, logs on failure, and
clears the loading flag in both cases.
-/

/-- A chat message, as in the component's `Message` interface. -/
structure ChatMessage where
  role : String
  content : String
deriving DecidableEq

/-- The component state touched by `askQuestion`: the messages list, the
input field and the loading flag. -/
structure ChatState where
  messages : List ChatMessage
  input : String
  isLoading : Bool
deriving DecidableEq

/-- The request `askQuestion` sends to `/api/ask`, when it sends one. -/
structure AskRequest where
  question : String
  image_key : String
deriving DecidableEq

/-- JavaScript `String.prototype.trim`: drop leading and trailing
whitespace. -/
def jsTrim (s : String) : String :=
  String.mk (((s.data.dropWhile Char.isWhitespace).reverse.dropWhile
    Char.isWhitespace).reverse)

/-- Embedded from the Chat component: `askQuestion`. `fetchAsk` stands for
the `fetch('/api/ask', ...)` call and yields the parsed `data.answer` on
success or a failure. Returns the final component state together with the
request that was issued, if any. -/
def askQuestion (fetchAsk : AskRequest → Option String) (imageKey : String)
    (s : ChatState) : ChatState × Option AskRequest :=
  if (jsTrim s.input == "") then
    (s, none)
  else
    let req : AskRequest := ⟨s.input, imageKey⟩
    let afterSend : ChatState :=
      { messages := s.messages ++ [⟨"user", s.input⟩],
        input := "",
        isLoading := true }
    match fetchAsk req with
    | some ans =>
      ({ afterSend with
          messages := afterSend.messages ++ [⟨"assistant", ans⟩],
          isLoading := false }, some req)
    | none =>
      ({ afterSend with isLoading := false }, some req)

/-! ## The ImageUploader component

Embedded from `src/moondream-web/src/components/ImageUploader.tsx`:
`handleDescribe` returns immediately when no file is selected; otherwise it
sets the loading flag, calls `describeImage`, stores the description and
image key on success, sets the fixed error description on failure, and
always clears the loading flag in the `finally` block.
-/

/-- The uploader state touched by `handleDescribe`. The selected file and
preview URL are abstract values. -/
structure UploaderState where
  selectedFile : Option Nat
  description : String
  imageUrl : Option String
  imageKey : Option String
  isLoading : Bool
deriving DecidableEq

/-- Embedded from `ImageUploader.tsx`: `handleDescribe`. `describeCall`
stands for the `describeImage(selectedFile)` request and yields the parsed
`DescribeResult` on success or a failure. -/
def handleDescribe (describeCall : Nat → Option DescribeResult)
    (s : UploaderState) : UploaderState :=
  match s.selectedFile with
  | none => s
  | some f =>
    match describeCall f with
    | some r =>
      { s with description := r.description, imageKey := some r.image_key,
               isLoading := false }
    | none =>
      { s with description := "Error describing image.", isLoading := false }

/-! ## Basic key lemmas -/

theorem mkKey_length (n : Nat) : (mkKey n).length = n + 1 := by
  simp [mkKey, String.length]

theorem mkKey_injective {n m : Nat} (h : mkKey n = mkKey m) : n = m := by
  have := congrArg String.length h
  rw [mkKey_length, mkKey_length] at this
  omega

/-! ## Claims about the relay route and the React components -/

/-- C8: a non-POST request to the ask relay endpoint gets status 405 with an
error body, and a POST whose parsed form is missing the question field or
the image_key field gets status 400 with an error body; in both cases no
request is forwarded to the inference server. -/
theorem ask_relay_validation (upstream : String → String → Option String)
    (method : String) (fields : ParsedFields) :
    (method ≠ "POST" →
      askRelayHandler upstream method fields =
        ⟨405, .errorMsg "Method not allowed", false⟩) ∧
    (method = "POST" → fields.question = none ∨ fields.image_key = none →
      askRelayHandler upstream method fields =
        ⟨400, .errorMsg "Missing question or image key", false⟩) := by
  constructor
  · intro hm
    simp [askRelayHandler, hm]
  · intro hm hmiss
    subst hm
    rcases hmiss with hq | hk
    · simp [askRelayHandler, hq, falsyStr]
    · simp [askRelayHandler, hk, falsyStr]

theorem ask_relay_validation_witness :
    askRelayHandler (fun _ _ => none) "GET" ⟨some "q", some "k0"⟩ =
      ⟨405, .errorMsg "Method not allowed", false⟩ ∧
    askRelayHandler (fun _ _ => none) "POST" ⟨none, some "k0"⟩ =
      ⟨400, .errorMsg "Missing question or image key", false⟩ :=
  ⟨(ask_relay_validation (fun _ _ => none) "GET" ⟨some "q", some "k0"⟩).1
      (by decide),
   (ask_relay_validation (fun _ _ => none) "POST" ⟨none, some "k0"⟩).2 rfl
      (Or.inl rfl)⟩

/-- C9: when the input's whitespace-trimmed form is empty, `askQuestion`
returns immediately: it issues no HTTP request and leaves the messages
list, the input field and the loading flag unchanged. -/
theorem askQuestion_blank_input (fetchAsk : AskRequest → Option String)
    (imageKey : String) (s : ChatState) (h : jsTrim s.input = "") :
    askQuestion fetchAsk imageKey s = (s, none) := by
  simp [askQuestion, h]

theorem askQuestion_blank_input_witness :
    askQuestion (fun _ => some "yes") "k0"
      ⟨[⟨"user", "hi"⟩], "  ", false⟩ = (⟨[⟨"user", "hi"⟩], "  ", false⟩, none) :=
  askQuestion_blank_input (fun _ => some "yes") "k0"
    ⟨[⟨"user", "hi"⟩], "  ", false⟩ (by decide)

/-- C10: when a file is selected and the `describeImage` call fails,
`handleDescribe` sets the description to the fixed string
"Error describing image." while the image key, selected file and preview
URL are unchanged, and the loading flag ends false on every exit path of
the call. -/
theorem handleDescribe_failure (describeCall : Nat → Option DescribeResult)
    (s : UploaderState) (f : Nat) (hf : s.selectedFile = some f)
    (he : describeCall f = none) :
    handleDescribe describeCall s =
      { s with description := "Error describing image.", isLoading := false } ∧
    ∀ dc : Nat → Option DescribeResult, (handleDescribe dc s).isLoading = false := by
  constructor
  · simp [handleDescribe, hf, he]
  · intro dc
    cases hr : dc f with
    | none => simp [handleDescribe, hf, hr]
    | some r => simp [handleDescribe, hf, hr]

theorem handleDescribe_failure_witness :
    handleDescribe (fun _ => none) ⟨some 1, "", some "blob:u", some "k0", true⟩ =
      ⟨some 1, "Error describing image.", some "blob:u", some "k0", false⟩ ∧
    ∀ dc : Nat → Option DescribeResult,
      (handleDescribe dc ⟨some 1, "", some "blob:u", some "k0", true⟩).isLoading = false :=
  handleDescribe_failure (fun _ => none)
    ⟨some 1, "", some "blob:u", some "k0", true⟩ 1 rfl rfl

/-! ## Structural lemmas about the store operations -/

theorem key_touchEntry (k : String) (now : Nat) (e : CacheEntry) :
    (touchEntry k now e).key = e.key := by
  unfold touchEntry
  split <;> rfl

theorem key_dropRef (k : String) (e : CacheEntry) :
    (dropRef k e).key = e.key := by
  unfold dropRef
  split <;> rfl

theorem acquire_none_iff (s : EncodingStore) (k : String) (now : Nat) :
    acquire s k now = none ↔ findEntry s k = none := by
  unfold acquire
  cases hf : findEntry s k <;> simp

theorem acquire_of_findEntry (s : EncodingStore) (k : String) (now : Nat)
    (e : CacheEntry) (h : findEntry s k = some e) :
    acquire s k now =
      some (e, { s with entries := s.entries.map (touchEntry k now) }) := by
  unfold acquire
  rw [h]

theorem acquire_some_elim (s : EncodingStore) (k : String) (now : Nat)
    (e : CacheEntry) (s1 : EncodingStore)
    (h : acquire s k now = some (e, s1)) :
    findEntry s k = some e ∧
    s1 = { s with entries := s.entries.map (touchEntry k now) } := by
  unfold acquire at h
  cases hf : findEntry s k with
  | none => rw [hf] at h; exact absurd h (by simp)
  | some e0 =>
    rw [hf] at h
    simp only [Option.some.injEq, Prod.mk.injEq] at h
    exact ⟨congrArg some h.1, h.2.symm⟩

theorem release_touch_refCounts (s : EncodingStore) (k : String) (now : Nat) :
    keyList (release { s with entries := s.entries.map (touchEntry k now) } k) =
      keyList s ∧
    refCounts (release { s with entries := s.entries.map (touchEntry k now) } k) =
      refCounts s := by
  constructor
  · unfold keyList release
    simp only [List.map_map]
    refine List.map_congr_left (fun e _ => ?_)
    simp only [Function.comp_apply, key_dropRef, key_touchEntry]
  · unfold refCounts release
    simp only [List.map_map]
    refine List.map_congr_left (fun e _ => ?_)
    simp only [Function.comp_apply]
    unfold touchEntry dropRef
    by_cases h : e.key == k <;> simp [h]

theorem put_some_elim (s : EncodingStore) (enc : Encoding) (now : Nat)
    (k : String) (s1 : EncodingStore) (h : put s enc now = some (k, s1)) :
    k = mkKey s.nextId ∧
    s1 = { s with entries := ⟨mkKey s.nextId, enc, now, now, 0⟩ :: s.entries,
                  nextId := s.nextId + 1 } := by
  unfold put at h
  split at h
  · exact absurd h (by simp)
  · simp only [Option.some.injEq, Prod.mk.injEq] at h
    exact ⟨h.1.symm, h.2.symm⟩

theorem describeOp_ok_elim (m : ModelCapability) (s : EncodingStore)
    (img : ImageBytes) (now : Nat) (r : DescribeResult) (s' : EncodingStore)
    (h : describeOp m s img now = (.ok r, s')) :
    ∃ enc, m.encode img = some enc ∧ m.describeCap enc = some r.description ∧
      r.image_key = mkKey s.nextId ∧
      s' = { s with
        entries := ⟨mkKey s.nextId, enc, now, now, 0⟩ :: s.entries,
        nextId := s.nextId + 1 } := by
  unfold describeOp at h
  split at h
  · exact absurd h (by simp)
  · rename_i enc he
    split at h
    · exact absurd h (by simp)
    · rename_i pr k s1 hput
      split at h
      · exact absurd h (by simp)
      · rename_i d hd
        obtain ⟨hk1, hs1⟩ := put_some_elim s enc now k s1 hput
        simp only [Prod.mk.injEq, Except.ok.injEq] at h
        obtain ⟨hr, hs⟩ := h
        subst hr
        subst hs
        subst hk1
        exact ⟨enc, he, hd, rfl, hs1⟩

theorem describeOp_error_elim (m : ModelCapability) (s : EncodingStore)
    (img : ImageBytes) (now : Nat) (err : CoreError) (s' : EncodingStore)
    (h : describeOp m s img now = (.error err, s')) :
    s' = s ∨
    ∃ enc, m.encode img = some enc ∧ err = .modelError ∧
      s' = invalidate { s with
        entries := ⟨mkKey s.nextId, enc, now, now, 0⟩ :: s.entries,
        nextId := s.nextId + 1 } (mkKey s.nextId) := by
  unfold describeOp at h
  split at h
  · simp only [Prod.mk.injEq] at h
    exact Or.inl h.2.symm
  · rename_i enc he
    split at h
    · simp only [Prod.mk.injEq] at h
      exact Or.inl h.2.symm
    · rename_i pr k s1 hput
      split at h
      · rename_i hd
        obtain ⟨hk1, hs1⟩ := put_some_elim s enc now k s1 hput
        simp only [Prod.mk.injEq, Except.error.injEq] at h
        refine Or.inr ⟨enc, he, h.1.symm, ?_⟩
        rw [← h.2, hs1, hk1]
      · exact absurd h (by simp)

theorem askOp_ok_elim (m : ModelCapability) (s : EncodingStore) (k q : String)
    (now : Nat) (r : AskResult) (s' : EncodingStore)
    (h : askOp m s k q now = (.ok r, s')) :
    ∃ e, findEntry s k = some e ∧ m.answerCap e.encoding q = .ok r.answer := by
  unfold askOp at h
  cases ha : acquire s k now with
  | none => rw [ha] at h; exact absurd h (by simp)
  | some pair =>
    obtain ⟨e, s1⟩ := pair
    rw [ha] at h
    dsimp only at h
    obtain ⟨hf, _⟩ := acquire_some_elim s k now e s1 ha
    cases hans : m.answerCap e.encoding q with
    | error g =>
      rw [hans] at h
      cases g <;> exact absurd h (by simp)
    | ok a =>
      rw [hans] at h
      simp only [Prod.mk.injEq, Except.ok.injEq] at h
      refine ⟨e, hf, ?_⟩
      rw [hans, ← h.1]

theorem askOp_error_elim (m : ModelCapability) (s : EncodingStore)
    (k q : String) (now : Nat) (err : CoreError) (s' : EncodingStore)
    (h : askOp m s k q now = (.error err, s')) :
    (findEntry s k = none ∧ s' = s ∧ err = .expiredOrUnknownKey) ∨
    ∃ e, findEntry s k = some e ∧
      s' = release { s with entries := s.entries.map (touchEntry k now) } k ∧
      ∃ g, m.answerCap e.encoding q = .error g ∧ err = liftGateFailure g := by
  unfold askOp at h
  cases ha : acquire s k now with
  | none =>
    rw [ha] at h
    simp only [Prod.mk.injEq, Except.error.injEq] at h
    exact Or.inl ⟨(acquire_none_iff s k now).mp ha, h.2.symm, h.1.symm⟩
  | some pair =>
    obtain ⟨e, s1⟩ := pair
    rw [ha] at h
    dsimp only at h
    obtain ⟨hf, hs1⟩ := acquire_some_elim s k now e s1 ha
    subst hs1
    cases hans : m.answerCap e.encoding q with
    | error g =>
      rw [hans] at h
      refine Or.inr ⟨e, hf, ?_, g, hans, ?_⟩
      · cases g <;> simp only [Prod.mk.injEq] at h <;> exact h.2.symm
      · cases g <;> simp only [Prod.mk.injEq, Except.error.injEq] at h <;>
          simp [liftGateFailure, ← h.1]
    | ok a =>
      rw [hans] at h
      exact absurd h (by simp)

theorem storeInv_of_entries_map (s : EncodingStore) (f : CacheEntry → CacheEntry)
    (hf : ∀ e, (f e).key = e.key) (hinv : StoreInv s) :
    StoreInv { s with entries := s.entries.map f } := by
  constructor
  · intro e' he'
    obtain ⟨e, he, rfl⟩ := List.mem_map.mp he'
    obtain ⟨n, hn, hk⟩ := hinv.1 e he
    exact ⟨n, hn, by rw [hf, hk]⟩
  · unfold keyList
    simp only [List.map_map]
    have heq : s.entries.map ((fun e => e.key) ∘ f) =
        s.entries.map (fun e => e.key) :=
      List.map_congr_left (fun e _ => hf e)
    rw [heq]
    exact hinv.2

theorem storeInv_of_entries_filter (s : EncodingStore) (p : CacheEntry → Bool)
    (hinv : StoreInv s) :
    StoreInv { s with entries := s.entries.filter p } := by
  constructor
  · intro e he
    exact hinv.1 e (List.mem_of_mem_filter he)
  · unfold keyList
    exact hinv.2.sublist ((List.filter_sublist s.entries).map (fun e => e.key))

theorem storeInv_put_entry (s : EncodingStore) (enc : Encoding) (now : Nat)
    (hinv : StoreInv s) :
    StoreInv { s with
      entries := ⟨mkKey s.nextId, enc, now, now, 0⟩ :: s.entries,
      nextId := s.nextId + 1 } := by
  constructor
  · intro e he
    rcases List.mem_cons.mp he with rfl | he'
    · exact ⟨s.nextId, Nat.lt_succ_self _, rfl⟩
    · obtain ⟨n, hn, hk⟩ := hinv.1 e he'
      exact ⟨n, Nat.lt_succ_of_lt hn, hk⟩
  · unfold keyList
    simp only [List.map_cons]
    refine List.nodup_cons.mpr ⟨?_, hinv.2⟩
    intro hmem
    obtain ⟨e, he, hk⟩ := List.mem_map.mp hmem
    obtain ⟨n, hn, hkey⟩ := hinv.1 e he
    rw [hkey] at hk
    exact absurd (mkKey_injective hk) (by omega)

theorem invalidate_fresh_entries (s : EncodingStore) (enc : Encoding)
    (now : Nat) (hfresh : ∀ e ∈ s.entries, e.key ≠ mkKey s.nextId) :
    (invalidate { s with
      entries := ⟨mkKey s.nextId, enc, now, now, 0⟩ :: s.entries,
      nextId := s.nextId + 1 } (mkKey s.nextId)).entries = s.entries := by
  show ((⟨mkKey s.nextId, enc, now, now, 0⟩ : CacheEntry) :: s.entries).filter
      (fun e => !(e.key == mkKey s.nextId)) = s.entries
  simp only [List.filter_cons, beq_self_eq_true, Bool.not_true,
    Bool.false_eq_true, if_false]
  exact List.filter_eq_self.mpr (fun e he => by simpa using hfresh e he)

/-! ## Claims about the core coordinator -/

/-- C1: an `ask` whose key is unknown or has been evicted by the sweep fails
with `ExpiredOrUnknownKey` and leaves the store unchanged, never returning a
stale or wrong answer; and every failure of `ask` is one of the three
distinguishable kinds `ExpiredOrUnknownKey`, `ModelError` or `Timeout`. -/
theorem ask_failure_taxonomy (m : ModelCapability) (s : EncodingStore)
    (k q : String) (now : Nat) :
    (findEntry s k = none →
      askOp m s k q now = (.error .expiredOrUnknownKey, s)) ∧
    (∀ err s', askOp m s k q now = (.error err, s') →
      err = .expiredOrUnknownKey ∨ err = .modelError ∨ err = .timeout) := by
  constructor
  · intro hf
    unfold askOp
    rw [(acquire_none_iff s k now).mpr hf]
  · intro err s' h
    rcases askOp_error_elim m s k q now err s' h with ⟨_, _, he⟩ | ⟨_, _, _, g, _, he⟩
    · exact Or.inl he
    · cases g
      · exact Or.inr (Or.inl he)
      · exact Or.inr (Or.inr he)

/-- C2: a successful `describe` returns exactly a description string and an
image_key string, and the key identifies the cached encoding of the encoded
image in the resulting store, ready for later `ask` calls. -/
theorem describe_success_shape (m : ModelCapability) (s : EncodingStore)
    (img : ImageBytes) (now : Nat) (r : DescribeResult) (s' : EncodingStore)
    (h : describeOp m s img now = (.ok r, s')) :
    ∃ enc, m.encode img = some enc ∧ m.describeCap enc = some r.description ∧
      ∃ e, findEntry s' r.image_key = some e ∧ e.encoding = enc := by
  obtain ⟨enc, he, hd, hk, hs⟩ := describeOp_ok_elim m s img now r s' h
  subst hs
  refine ⟨enc, he, hd, ⟨mkKey s.nextId, enc, now, now, 0⟩, ?_, rfl⟩
  unfold findEntry
  rw [hk]
  simp [List.find?_cons]

/-- C3: a successful `ask` returns exactly an answer string, and that answer
is the string produced by the model's answer capability for the encoding
cached under the requested key. -/
theorem ask_success_answer (m : ModelCapability) (s : EncodingStore)
    (k q : String) (now : Nat) (r : AskResult) (s' : EncodingStore)
    (h : askOp m s k q now = (.ok r, s')) :
    ∃ e, findEntry s k = some e ∧ m.answerCap e.encoding q = .ok r.answer :=
  askOp_ok_elim m s k q now r s' h

/-- C4: after a successful `describe` returning a key, an `ask` on that key
succeeds — even across an intervening sweep — provided the TTL has not
elapsed since the entry was created and the model's answer call succeeds. -/
theorem describe_then_ask (m : ModelCapability) (s : EncodingStore)
    (img : ImageBytes) (q ans : String) (t0 t1 : Nat) (r : DescribeResult)
    (s1 : EncodingStore) (hd : describeOp m s img t0 = (.ok r, s1))
    (ht : t1 - t0 ≤ s.ttl)
    (ha : ∀ enc, m.encode img = some enc → m.answerCap enc q = .ok ans) :
    (askOp m (sweep s1 t1) r.image_key q t1).1 = .ok ⟨ans⟩ := by
  obtain ⟨enc, he, hdc, hk, hs⟩ := describeOp_ok_elim m s img t0 r s1 hd
  subst hs
  have hkeep : (!evictable s.ttl t1 (⟨mkKey s.nextId, enc, t0, t0, 0⟩ :
      CacheEntry)) = true := by
    unfold evictable
    simp
    omega
  have hfind : findEntry (sweep { s with
      entries := ⟨mkKey s.nextId, enc, t0, t0, 0⟩ :: s.entries,
      nextId := s.nextId + 1 } t1) r.image_key =
      some ⟨mkKey s.nextId, enc, t0, t0, 0⟩ := by
    unfold findEntry sweep
    dsimp only
    rw [List.filter_cons, if_pos hkeep, hk]
    exact List.find?_cons_of_pos _ (by simp)
  rw [askOp, acquire_of_findEntry _ _ _ _ hfind]
  dsimp only
  rw [ha enc he]

/-- C5: a failing `describe` or `ask` propagates its error to the caller and
releases every partially acquired resource: on any failure the live keys and
the reference counts of the store are exactly as before the call, a failing
gated answer call is never swallowed into a success, and no orphaned cache
entry remains. -/
theorem core_failure_releases_resources (m : ModelCapability)
    (s : EncodingStore) (hinv : StoreInv s) :
    (∀ k q now err s', askOp m s k q now = (.error err, s') →
      keyList s' = keyList s ∧ refCounts s' = refCounts s) ∧
    (∀ k q now e g, findEntry s k = some e →
      m.answerCap e.encoding q = .error g →
      (askOp m s k q now).1 = .error (liftGateFailure g)) ∧
    (∀ img now err s', describeOp m s img now = (.error err, s') →
      keyList s' = keyList s ∧ refCounts s' = refCounts s) := by
  refine ⟨?_, ?_, ?_⟩
  · intro k q now err s' h
    rcases askOp_error_elim m s k q now err s' h with ⟨_, rfl, _⟩ | ⟨e, _, rfl, _⟩
    · exact ⟨rfl, rfl⟩
    · obtain ⟨h1, h2⟩ := release_touch_refCounts s k now
      exact ⟨h1, h2⟩
  · intro k q now e g hf hg
    rw [askOp, acquire_of_findEntry _ _ _ _ hf]
    dsimp only
    rw [hg]
    cases g <;> rfl
  · intro img now err s' h
    rcases describeOp_error_elim m s img now err s' h with rfl | ⟨enc, _, _, rfl⟩
    · exact ⟨rfl, rfl⟩
    · have hfresh : ∀ e ∈ s.entries, e.key ≠ mkKey s.nextId := by
        intro e he hkey
        obtain ⟨n, hn, hk⟩ := hinv.1 e he
        rw [hk] at hkey
        exact absurd (mkKey_injective hkey) (by omega)
      have hent := invalidate_fresh_entries s enc now hfresh
      constructor
      · unfold keyList
        rw [hent]
      · unfold refCounts
        rw [hent]

/-! ## Lifetime lemmas: counter monotonicity and invariant preservation -/

theorem askOp_nextId (m : ModelCapability) (s : EncodingStore) (k q : String)
    (now : Nat) : (askOp m s k q now).2.nextId = s.nextId := by
  unfold askOp
  cases ha : acquire s k now with
  | none => rfl
  | some pair =>
    obtain ⟨e, s1⟩ := pair
    obtain ⟨_, hs1⟩ := acquire_some_elim s k now e s1 ha
    subst hs1
    dsimp only
    cases m.answerCap e.encoding q with
    | error g => cases g <;> rfl
    | ok a => rfl

theorem describeOp_nextId_le (m : ModelCapability) (s : EncodingStore)
    (img : ImageBytes) (now : Nat) :
    s.nextId ≤ (describeOp m s img now).2.nextId := by
  unfold describeOp
  cases he : m.encode img with
  | none => exact Nat.le_refl _
  | some enc =>
    dsimp only
    unfold put
    by_cases hc : s.capacity ≤ s.entries.length
    · rw [if_pos hc]
    · rw [if_neg hc]
      dsimp only
      cases m.describeCap enc with
      | none => exact Nat.le_succ _
      | some d => exact Nat.le_succ _

theorem runOp_nextId_le (m : ModelCapability) (s : EncodingStore)
    (op : StoreOp) : s.nextId ≤ (runOp m s op).nextId := by
  cases op with
  | describeReq img now => exact describeOp_nextId_le m s img now
  | askReq k q now => exact Nat.le_of_eq (askOp_nextId m s k q now).symm
  | sweepReq now => exact Nat.le_refl _

theorem run_nextId_le (m : ModelCapability) (s : EncodingStore)
    (ops : List StoreOp) : s.nextId ≤ (run m s ops).nextId := by
  induction ops generalizing s with
  | nil => exact Nat.le_refl _
  | cons op ops ih =>
    exact Nat.le_trans (runOp_nextId_le m s op) (ih (runOp m s op))

theorem storeInv_askOp (m : ModelCapability) (s : EncodingStore) (k q : String)
    (now : Nat) (hinv : StoreInv s) : StoreInv (askOp m s k q now).2 := by
  unfold askOp
  cases ha : acquire s k now with
  | none => exact hinv
  | some pair =>
    obtain ⟨e, s1⟩ := pair
    obtain ⟨_, hs1⟩ := acquire_some_elim s k now e s1 ha
    subst hs1
    have h1 : StoreInv { s with entries := s.entries.map (touchEntry k now) } :=
      storeInv_of_entries_map s _ (key_touchEntry k now) hinv
    have h2 := storeInv_of_entries_map
      { s with entries := s.entries.map (touchEntry k now) } _ (key_dropRef k) h1
    dsimp only
    cases m.answerCap e.encoding q with
    | error g => cases g <;> exact h2
    | ok a => exact h2

theorem storeInv_sweep (s : EncodingStore) (now : Nat) (hinv : StoreInv s) :
    StoreInv (sweep s now) :=
  storeInv_of_entries_filter s _ hinv

theorem storeInv_describeOp (m : ModelCapability) (s : EncodingStore)
    (img : ImageBytes) (now : Nat) (hinv : StoreInv s) :
    StoreInv (describeOp m s img now).2 := by
  unfold describeOp
  cases he : m.encode img with
  | none => exact hinv
  | some enc =>
    dsimp only
    unfold put
    by_cases hc : s.capacity ≤ s.entries.length
    · rw [if_pos hc]
      exact hinv
    · rw [if_neg hc]
      dsimp only
      have hput := storeInv_put_entry s enc now hinv
      cases m.describeCap enc with
      | none => exact storeInv_of_entries_filter _ _ hput
      | some d => exact hput

theorem storeInv_runOp (m : ModelCapability) (s : EncodingStore) (op : StoreOp)
    (hinv : StoreInv s) : StoreInv (runOp m s op) := by
  cases op with
  | describeReq img now => exact storeInv_describeOp m s img now hinv
  | askReq k q now => exact storeInv_askOp m s k q now hinv
  | sweepReq now => exact storeInv_sweep s now hinv

theorem storeInv_run (m : ModelCapability) (s : EncodingStore)
    (ops : List StoreOp) (hinv : StoreInv s) : StoreInv (run m s ops) := by
  induction ops generalizing s with
  | nil => exact hinv
  | cons op ops ih => exact ih (runOp m s op) (storeInv_runOp m s op hinv)

/-- C6: over the store's whole lifetime, two successful `describe` calls
never return the same key — even when arbitrary operations, sweeps and
evictions happen in between — and the live entries of the resulting store
carry pairwise distinct keys. -/
theorem describe_keys_unique (m : ModelCapability) (s : EncodingStore)
    (hinv : StoreInv s) (img1 img2 : ImageBytes) (t1 t2 : Nat)
    (r1 r2 : DescribeResult) (s1 s2 : EncodingStore) (ops : List StoreOp)
    (h1 : describeOp m s img1 t1 = (.ok r1, s1))
    (h2 : describeOp m (run m s1 ops) img2 t2 = (.ok r2, s2)) :
    r1.image_key ≠ r2.image_key ∧ (keyList s2).Nodup := by
  obtain ⟨enc1, _, _, hk1, hs1⟩ := describeOp_ok_elim m s img1 t1 r1 s1 h1
  obtain ⟨enc2, _, _, hk2, hs2⟩ :=
    describeOp_ok_elim m (run m s1 ops) img2 t2 r2 s2 h2
  have hn1 : s1.nextId = s.nextId + 1 := by rw [hs1]
  have hmono : s1.nextId ≤ (run m s1 ops).nextId := run_nextId_le m s1 ops
  constructor
  · rw [hk1, hk2]
    intro hcontra
    have heq := mkKey_injective hcontra
    omega
  · have i1 : StoreInv s1 := by
      rw [hs1]
      exact storeInv_put_entry s enc1 t1 hinv
    have i2 : StoreInv (run m s1 ops) := storeInv_run m s1 ops i1
    have i3 : StoreInv s2 := by
      rw [hs2]
      exact storeInv_put_entry _ enc2 t2 i2
    exact i3.2

/-! ## Gate lemmas and the admission claim -/

theorem gateStep_inv {n : Nat} {s s' : GateState} (hinv : GateInv n s)
    (hs : GateStep s s') : GateInv n s' := by
  obtain ⟨hcap, hlen, hpw, hbound⟩ := hinv
  cases hs with
  | arrive =>
    refine ⟨hcap, hlen, ?_, ?_⟩
    · rw [List.pairwise_append]
      refine ⟨hpw, List.pairwise_singleton _ _, ?_⟩
      intro a ha b hb
      rw [List.mem_singleton] at hb
      subst hb
      exact hbound a ha
    · intro r hr
      rcases List.mem_append.mp hr with h | h
      · exact Nat.lt_succ_of_lt (hbound r h)
      · rw [List.mem_singleton] at h
        subst h
        exact Nat.lt_succ_self _
  | grant r rest hw hlt =>
    refine ⟨hcap, ?_, ?_, ?_⟩
    · rw [List.length_append, List.length_singleton]
      omega
    · rw [hw] at hpw
      exact (List.pairwise_cons.mp hpw).2
    · intro x hx
      refine hbound x ?_
      rw [hw]
      exact List.mem_cons_of_mem _ hx
  | finish r hr =>
    exact ⟨hcap, Nat.le_trans (List.Sublist.length_le
      (List.erase_sublist _ _)) hlen, hpw, hbound⟩
  | abandon r hr =>
    refine ⟨hcap, hlen, hpw.sublist (List.erase_sublist _ _), ?_⟩
    intro x hx
    exact hbound x (List.mem_of_mem_erase hx)

theorem gateReachable_inv (n : Nat) (s : GateState) (h : GateReachable n s) :
    GateInv n s := by
  induction h with
  | init =>
    exact ⟨rfl, Nat.zero_le _, List.Pairwise.nil,
      fun r hr => absurd hr (List.not_mem_nil r)⟩
  | step hr hs ih => exact gateStep_inv ih hs

/-- C7: in every reachable state of the InferenceGate, at most `N` model
calls hold slots at once, and the waiting queue is ordered by arrival, so
the request at the head — the only one a `grant` step may admit — arrived
before every other waiting request: slots are granted in FIFO order. -/
theorem gate_bounded_and_fifo (n : Nat) (s : GateState)
    (h : GateReachable n s) :
    s.holding.length ≤ n ∧
    ∀ r rest, s.waiting = r :: rest → ∀ x ∈ rest, r < x := by
  obtain ⟨hcap, hlen, hpw, _⟩ := gateReachable_inv n s h
  refine ⟨hlen, ?_⟩
  intro r rest hw x hx
  rw [hw] at hpw
  exact (List.pairwise_cons.mp hpw).1 x hx

/-! ## Concrete evaluations of the core claims -/

theorem demoStore_inv : StoreInv demoStore :=
  ⟨fun e he => absurd he (by simp [demoStore]), by simp [keyList, demoStore]⟩

theorem demoStore1_inv : StoreInv demoStore1 := by
  constructor
  · intro e he
    simp only [demoStore1, List.mem_singleton] at he
    subst he
    exact ⟨0, Nat.zero_lt_one, rfl⟩
  · simp [keyList, demoStore1]

theorem ask_failure_taxonomy_witness :
    askOp demoModel (sweep demoStore1 100) (mkKey 0) "q" 100 =
      (.error .expiredOrUnknownKey, sweep demoStore1 100) ∧
    (CoreError.modelError = .expiredOrUnknownKey ∨
      CoreError.modelError = .modelError ∨ CoreError.modelError = .timeout) :=
  ⟨(ask_failure_taxonomy demoModel (sweep demoStore1 100) (mkKey 0) "q"
      100).1 (by decide),
   (ask_failure_taxonomy failingModel demoStore1 (mkKey 0) "q" 0).2
      .modelError ⟨[⟨mkKey 0, 7, 0, 0, 0⟩], 1, 4, 10⟩ (by rfl)⟩

theorem describe_success_shape_witness :
    ∃ enc, demoModel.encode [3] = some enc ∧
      demoModel.describeCap enc = some "image 3" ∧
      ∃ e, findEntry ⟨[⟨mkKey 0, 3, 0, 0, 0⟩], 1, 4, 10⟩ (mkKey 0) = some e ∧
        e.encoding = enc :=
  describe_success_shape demoModel demoStore [3] 0 ⟨"image 3", mkKey 0⟩
    ⟨[⟨mkKey 0, 3, 0, 0, 0⟩], 1, 4, 10⟩ (by rfl)

theorem ask_success_answer_witness :
    ∃ e, findEntry demoStore1 (mkKey 0) = some e ∧
      demoModel.answerCap e.encoding "hi" = .ok "answer 7 hi" :=
  ask_success_answer demoModel demoStore1 (mkKey 0) "hi" 5 ⟨"answer 7 hi"⟩
    ⟨[⟨mkKey 0, 7, 0, 5, 0⟩], 1, 4, 10⟩ (by rfl)

theorem describe_then_ask_witness :
    (askOp demoModel (sweep ⟨[⟨mkKey 0, 2, 0, 0, 0⟩], 1, 4, 10⟩ 5)
      (mkKey 0) "q" 5).1 = .ok ⟨"answer 2 q"⟩ :=
  describe_then_ask demoModel demoStore [2] "q" "answer 2 q" 0 5
    ⟨"image 2", mkKey 0⟩ ⟨[⟨mkKey 0, 2, 0, 0, 0⟩], 1, 4, 10⟩ (by rfl)
    (by decide) (fun enc h => by cases Option.some.inj h; rfl)

theorem core_failure_releases_resources_witness :
    keyList (⟨[⟨mkKey 0, 7, 0, 0, 0⟩], 1, 4, 10⟩ : EncodingStore) =
      keyList demoStore1 ∧
    refCounts (⟨[⟨mkKey 0, 7, 0, 0, 0⟩], 1, 4, 10⟩ : EncodingStore) =
      refCounts demoStore1 :=
  (core_failure_releases_resources failingModel demoStore1 demoStore1_inv).1
    (mkKey 0) "q" 0 .modelError ⟨[⟨mkKey 0, 7, 0, 0, 0⟩], 1, 4, 10⟩ (by rfl)

theorem describe_keys_unique_witness :
    mkKey 0 ≠ mkKey 1 ∧
    (keyList ⟨[⟨mkKey 1, 9, 1, 1, 0⟩, ⟨mkKey 0, 2, 0, 0, 0⟩], 2, 4, 10⟩).Nodup :=
  describe_keys_unique demoModel demoStore demoStore_inv [2] [9] 0 1
    ⟨"image 2", mkKey 0⟩ ⟨"image 9", mkKey 1⟩
    ⟨[⟨mkKey 0, 2, 0, 0, 0⟩], 1, 4, 10⟩
    ⟨[⟨mkKey 1, 9, 1, 1, 0⟩, ⟨mkKey 0, 2, 0, 0, 0⟩], 2, 4, 10⟩ []
    (by rfl) (by rfl)

theorem gate_bounded_and_fifo_witness :
    (⟨1, 2, [0, 1], []⟩ : GateState).holding.length ≤ 1 ∧
    ∀ r rest, (⟨1, 2, [0, 1], []⟩ : GateState).waiting = r :: rest →
      ∀ x ∈ rest, r < x :=
  gate_bounded_and_fifo 1 ⟨1, 2, [0, 1], []⟩
    (.step (.step .init (.arrive _)) (.arrive _))

end Moondream
